import Mathlib

/-!
# Verification of the GitLab → GitHub contribution sync engine

A shallow embedding of `sync.py` (the incremental, state-tracked
event-replication engine) and proofs about it.

The script manipulates Python `datetime` values: it parses ISO-8601
timestamps (`datetime.fromisoformat` after `str.replace("Z", "+00:00")`),
formats them (`strftime`, `isoformat`), adds a `timedelta`, and converts to
UTC (`astimezone`).  The first part of this file models that datetime
arithmetic: civil-date ↔ day-count conversions, epoch-second arithmetic,
parsing and formatting.  The later parts embed the three functions of the
script — `stream_gitlab_events`, `sync_events_and_update_state`, `main` —
and prove the claimed properties.
-/

/-! ## Civil calendar arithmetic

`daysFromCivil y m d` is the number of days from 1970-01-01 to the civil
date `y-m-d` (proleptic Gregorian), and `civilFromDays` is its inverse.
These model the conversions Python's `datetime` performs between its
`(year, month, day)` fields and absolute time. -/

def daysFromCivil (y m d : Int) : Int :=
  let y2 := if m ≤ 2 then y - 1 else y
  let era := y2 / 400
  let yoe := y2 - era * 400
  let mp := (m + 9) % 12
  let doy := (153 * mp + 2) / 5 + d - 1
  let doe := yoe * 365 + yoe / 4 - yoe / 100 + doy
  era * 146097 + doe - 719468

def civilFromDays (z0 : Int) : Int × Int × Int :=
  let n := z0 + 719468
  let era := n / 146097
  let doe := n - era * 146097
  let c := min 3 (doe / 36524)
  let r2 := doe - 36524 * c
  let q := r2 / 1461
  let r3 := r2 - 1461 * q
  let u := min 3 (r3 / 365)
  let yoe := 100 * c + 4 * q + u
  let doy := r3 - 365 * u
  let mp := (5 * doy + 2) / 153
  let d := doy - (153 * mp + 2) / 5 + 1
  let m := if mp < 10 then mp + 3 else mp - 9
  (if m ≤ 2 then yoe + era * 400 + 1 else yoe + era * 400, m, d)

/-- `civilFromDays` is a right inverse of `daysFromCivil`, and for day
counts in the range of Python's `datetime` (years 1 … 9999) it produces
in-range civil fields. -/
theorem civilFromDays_spec (z y m d : Int)
    (hz1 : -719162 ≤ z) (hz2 : z ≤ 2932896)
    (h : civilFromDays z = (y, m, d)) :
    daysFromCivil y m d = z ∧ 1 ≤ y ∧ y ≤ 9999 ∧
    1 ≤ m ∧ m ≤ 12 ∧ 1 ≤ d ∧ d ≤ 31 := by
  simp only [civilFromDays, Prod.mk.injEq] at h
  set n : Int := z + 719468 with hn
  set era : Int := n / 146097 with hera
  set doe : Int := n - era * 146097 with hdoe
  set c : Int := min 3 (doe / 36524) with hc
  set r2 : Int := doe - 36524 * c with hr2
  set q : Int := r2 / 1461 with hq
  set r3 : Int := r2 - 1461 * q with hr3
  set u : Int := min 3 (r3 / 365) with hu
  set yoe : Int := 100 * c + 4 * q + u with hyoe
  set doy : Int := r3 - 365 * u with hdoy
  set mp : Int := (5 * doy + 2) / 153 with hmp
  set dd : Int := doy - (153 * mp + 2) / 5 + 1 with hdd
  set m2 : Int := (if mp < 10 then mp + 3 else mp - 9) with hm2
  clear_value n era doe c r2 q r3 u yoe doy mp dd m2
  obtain ⟨hy, hm, hd⟩ := h
  subst hy hm hd
  have hdoeb : 0 ≤ doe ∧ doe ≤ 146096 := by omega
  have hnb : 306 ≤ n ∧ n ≤ 3652364 := by omega
  have herab : 0 ≤ era ∧ era ≤ 24 := by omega
  have hcb : 0 ≤ c ∧ c ≤ 3 ∧ 0 ≤ r2 ∧ r2 ≤ 36524 := by omega
  have hqb : 0 ≤ q ∧ q ≤ 24 ∧ 0 ≤ r3 ∧ r3 ≤ 1460 := by omega
  have hub : 0 ≤ u ∧ u ≤ 3 ∧ 0 ≤ doy ∧ doy ≤ 365 := by omega
  have hyoeb : 0 ≤ yoe ∧ yoe ≤ 399 := by omega
  have hy4 : yoe / 4 = 25 * c + q := by omega
  have hy100 : yoe / 100 = c := by omega
  have hstart : 365 * yoe + yoe / 4 - yoe / 100 + doy = doe := by omega
  have hmpb : 0 ≤ mp ∧ mp ≤ 11 := by omega
  have hddb : 1 ≤ dd ∧ dd ≤ 31 := by omega
  set yv : Int := (if m2 ≤ 2 then yoe + era * 400 + 1 else yoe + era * 400) with hyv
  simp only [daysFromCivil]
  set y2v : Int := (if m2 ≤ 2 then yv - 1 else yv) with hy2v
  set eraB : Int := y2v / 400 with heraB
  set yoeB : Int := y2v - eraB * 400 with hyoeB
  set mpB : Int := (m2 + 9) % 12 with hmpB
  set doyB : Int := (153 * mpB + 2) / 5 + dd - 1 with hdoyB
  set doeB : Int := yoeB * 365 + yoeB / 4 - yoeB / 100 + doyB with hdoeB
  clear_value yv y2v eraB yoeB mpB doyB doeB
  split_ifs at hm2 hyv hy2v <;>
    (have hEB : eraB = era := by omega
     have hYB : yoeB = yoe := by omega
     have hMB : mpB = mp := by omega
     have hD4 : yoeB / 4 = 25 * c + q := by omega
     have hD100 : yoeB / 100 = c := by omega
     have hJ : (153 * mpB + 2) / 5 = (153 * mp + 2) / 5 := by omega
     refine ⟨?_, ?_, ?_, ?_, ?_, ?_, ?_⟩ <;> omega)

/-- For civil fields in Python's `datetime` range, the day count stays in
the corresponding range. -/
theorem daysFromCivil_bounds (y m d : Int)
    (hy1 : 1 ≤ y) (hy2 : y ≤ 9999) (hm1 : 1 ≤ m) (hm2 : m ≤ 12)
    (hd1 : 1 ≤ d) (hd2 : d ≤ 31) :
    -719162 ≤ daysFromCivil y m d ∧ daysFromCivil y m d ≤ 2932896 := by
  simp only [daysFromCivil]
  set y2 : Int := (if m ≤ 2 then y - 1 else y) with hy2v
  set era : Int := y2 / 400 with hera
  set yoe : Int := y2 - era * 400 with hyoe
  set mp : Int := (m + 9) % 12 with hmp
  set doy : Int := (153 * mp + 2) / 5 + d - 1 with hdoy
  set doe : Int := yoe * 365 + yoe / 4 - yoe / 100 + doy with hdoe
  clear_value y2 era yoe mp doy doe
  split_ifs at hy2v <;>
    (have hb1 : 0 ≤ y2 ∧ y2 ≤ 9999 := by omega
     have hb2 : 0 ≤ era ∧ era ≤ 24 := by omega
     have hb3 : 0 ≤ yoe ∧ yoe ≤ 399 := by omega
     have hb4 : 0 ≤ mp ∧ mp ≤ 11 := by omega
     have hb5 : 0 ≤ doy ∧ doy ≤ 367 := by omega
     have hb6 : 0 ≤ yoe / 4 ∧ yoe / 4 ≤ 99 := by omega
     have hb7 : 0 ≤ yoe / 100 ∧ yoe / 100 ≤ 3 := by omega
     have hb8 : yoe / 100 ≤ yoe / 4 ∧ yoe / 4 - yoe / 100 ≤ 96 := by omega
     have hb9 : (153 * mp + 2) / 5 ≤ doy ∧ doy ≤ (153 * mp + 2) / 5 + 30 := by
       omega
     have hkey : era * 146097 + doe =
         365 * y2 + 97 * era + (yoe / 4 - yoe / 100) + doy := by omega
     interval_cases m <;> omega)

/-! ## A model of Python `datetime`

A `PyDateTime` holds the wall-clock fields of a Python `datetime` plus its
`tzinfo` as a fixed UTC offset in seconds (`none` for a naive datetime). -/

structure PyDateTime where
  year : Nat
  month : Nat
  day : Nat
  hour : Nat
  minute : Nat
  second : Nat
  microsecond : Nat
  tzOffsetSeconds : Option Int
deriving DecidableEq, Repr

/-- Wall-clock seconds since the epoch, ignoring the timezone and the
microseconds (what the `(year, …, second)` fields denote). -/
def toEpochSeconds (dt : PyDateTime) : Int :=
  daysFromCivil (dt.year : Int) (dt.month : Int) (dt.day : Int) * 86400 +
    ((dt.hour * 3600 + dt.minute * 60 + dt.second : Nat) : Int)

/-- The UTC datetime whose wall-clock fields denote epoch second `t`,
carrying microsecond value `micro` (models building a
`datetime` in timezone UTC from an absolute time). -/
def fromEpochUTC (t : Int) (micro : Nat) : PyDateTime :=
  let z := t / 86400
  let sod := (t % 86400).toNat
  let c := civilFromDays z
  { year := c.1.toNat, month := c.2.1.toNat, day := c.2.2.toNat,
    hour := sod / 3600, minute := sod / 60 % 60, second := sod % 60,
    microsecond := micro, tzOffsetSeconds := some 0 }

/-- Epoch range of Python datetimes: `0001-01-01T00:00:00` … `9999-12-31T23:59:59`. -/
def minEpoch : Int := -62135596800

def maxEpoch : Int := 253402300799

/-- Round trip: the wall-clock fields built from an in-range epoch second
denote exactly that epoch second, and all fields are in `datetime` range. -/
theorem toEpochSeconds_fromEpochUTC (t : Int) (micro : Nat)
    (h1 : minEpoch ≤ t) (h2 : t ≤ maxEpoch) :
    toEpochSeconds (fromEpochUTC t micro) = t ∧
    1 ≤ (fromEpochUTC t micro).year ∧ (fromEpochUTC t micro).year ≤ 9999 ∧
    1 ≤ (fromEpochUTC t micro).month ∧ (fromEpochUTC t micro).month ≤ 12 ∧
    1 ≤ (fromEpochUTC t micro).day ∧ (fromEpochUTC t micro).day ≤ 31 ∧
    (fromEpochUTC t micro).hour ≤ 23 ∧ (fromEpochUTC t micro).minute ≤ 59 ∧
    (fromEpochUTC t micro).second ≤ 59 := by
  simp only [minEpoch, maxEpoch] at h1 h2
  obtain ⟨y, m, d, hcd⟩ : ∃ y m d, civilFromDays (t / 86400) = (y, m, d) :=
    ⟨_, _, _, rfl⟩
  have hz1 : -719162 ≤ t / 86400 := by omega
  have hz2 : t / 86400 ≤ 2932896 := by omega
  obtain ⟨hrt, hyb1, hyb2, hmb1, hmb2, hdb1, hdb2⟩ :=
    civilFromDays_spec (t / 86400) y m d hz1 hz2 hcd
  have hsod : 0 ≤ t % 86400 ∧ t % 86400 < 86400 ∧
      t / 86400 * 86400 + t % 86400 = t := by omega
  simp only [toEpochSeconds, fromEpochUTC, hcd]
  have hy : ((y.toNat : Nat) : Int) = y := by omega
  have hm : ((m.toNat : Nat) : Int) = m := by omega
  have hd : ((d.toNat : Nat) : Int) = d := by omega
  simp only [hy, hm, hd, hrt]
  have hsplit : ∀ s : Nat, s < 86400 →
      (s / 3600) * 3600 + (s / 60 % 60) * 60 + s % 60 = s ∧
      s / 3600 ≤ 23 ∧ s / 60 % 60 ≤ 59 ∧ s % 60 ≤ 59 := by
    intro s hs
    omega
  obtain ⟨he, hh, hmi, hs⟩ := hsplit (t % 86400).toNat (by omega)
  refine ⟨by push_cast [he]; omega, by omega, by omega, by omega, by omega,
    by omega, by omega, hh, hmi, hs⟩

/-! ## Formatting

Zero-padded decimal rendering, `strftime` with the two format strings the
script uses, and `datetime.isoformat`.  In Lean 4.14 a `String` wraps a
`List Char`, so the formatters build character lists. -/

def dChar (n : Nat) : Char := Nat.digitChar (n % 10)

def pad2 (n : Nat) : List Char := [dChar (n / 10), dChar n]

def pad4 (n : Nat) : List Char :=
  [dChar (n / 1000), dChar (n / 100), dChar (n / 10), dChar n]

def pad6 (n : Nat) : List Char :=
  [dChar (n / 100000), dChar (n / 10000), dChar (n / 1000),
   dChar (n / 100), dChar (n / 10), dChar n]

def dateChars (dt : PyDateTime) : List Char :=
  pad4 dt.year ++ '-' :: pad2 dt.month ++ '-' :: pad2 dt.day

def timeChars (dt : PyDateTime) : List Char :=
  pad2 dt.hour ++ ':' :: pad2 dt.minute ++ ':' :: pad2 dt.second

/-- `dt.strftime("%Y-%m-%d %H:%M:%S")` — the naive local-style timestamp
the script passes to `git commit --date` and the `GIT_*_DATE` variables. -/
def strftimeNaive (dt : PyDateTime) : String :=
  String.mk (dateChars dt ++ ' ' :: timeChars dt)

/-- `dt.strftime("%Y-%m-%dT%H:%M:%SZ")` — the format of
`DEFAULT_START_DATE`. -/
def strftimeZform (dt : PyDateTime) : String :=
  String.mk (dateChars dt ++ 'T' :: timeChars dt ++ ['Z'])

/-- The `±HH:MM[:SS]` rendering of a UTC offset in `datetime.isoformat()`. -/
def offsetChars (off : Int) : List Char :=
  let a := off.natAbs
  (if off < 0 then '-' else '+') ::
    (pad2 (a / 3600) ++ ':' :: pad2 (a / 60 % 60) ++
      (if a % 60 = 0 then [] else ':' :: pad2 (a % 60)))

/-- `dt.isoformat()`. -/
def pyIsoformat (dt : PyDateTime) : String :=
  String.mk (dateChars dt ++ 'T' :: timeChars dt ++
    (if dt.microsecond = 0 then [] else '.' :: pad6 dt.microsecond) ++
    (match dt.tzOffsetSeconds with
     | none => []
     | some off => offsetChars off))

/-! ## Python string primitives: `str.strip` and `str.replace` -/

/-- Python's whitespace set for `str.strip()`. -/
def pySpace (c : Char) : Bool :=
  c == ' ' || c == '\t' || c == '\n' || c == '\r' || c == '\x0b' || c == '\x0c'

/-- `s.strip()`. -/
def pyStrip (s : String) : String :=
  String.mk (((s.toList.dropWhile pySpace).reverse.dropWhile pySpace).reverse)

def startsWith : List Char → List Char → Bool
  | [], _ => true
  | _ :: _, [] => false
  | p :: ps, c :: cs => p == c && startsWith ps cs

/-- One pass of `str.replace`: replace every non-overlapping occurrence of
`pat`, scanning left to right.  Structural recursion on a fuel bound so
that it evaluates by kernel reduction; each step consumes at least one
input character, so `fuel = length + 1` suffices. -/
def replCharsF (pat rep : List Char) : Nat → List Char → List Char
  | 0, l => l
  | _ + 1, [] => []
  | f + 1, c :: rest =>
    if pat.length ≠ 0 ∧ startsWith pat (c :: rest) = true then
      rep ++ replCharsF pat rep f (List.drop (pat.length - 1) rest)
    else
      c :: replCharsF pat rep f rest

/-- `s.replace(pat, rep)` (for a non-empty `pat`, as used by the script). -/
def pyReplace (s pat rep : String) : String :=
  String.mk (replCharsF pat.toList rep.toList (s.toList.length + 1) s.toList)

/-! ## Parsing: `datetime.fromisoformat`

The script calls `datetime.fromisoformat(s.replace("Z", "+00:00"))`.  This
models the standard dashed ISO-8601 subset accepted there:
`YYYY-MM-DD[<sep>HH:MM[:SS[.ffffff]][±HH[:MM[:SS]]]]` with `sep ∈ {T, ' '}`,
fractions of one or more digits (truncated to microseconds), and all field
ranges validated as `datetime.__new__` does. -/

def digitVal? (c : Char) : Option Nat :=
  if '0' ≤ c ∧ c ≤ '9' then some (c.toNat - 48) else none

def parse2 : List Char → Option (Nat × List Char)
  | c1 :: c2 :: rest =>
    match digitVal? c1, digitVal? c2 with
    | some a, some b => some (10 * a + b, rest)
    | _, _ => none
  | _ => none

def parse4 : List Char → Option (Nat × List Char)
  | c1 :: c2 :: c3 :: c4 :: rest =>
    match digitVal? c1, digitVal? c2, digitVal? c3, digitVal? c4 with
    | some a, some b, some c, some d => some (1000 * a + 100 * b + 10 * c + d, rest)
    | _, _, _, _ => none
  | _ => none

def expectChar (c : Char) : List Char → Option (List Char)
  | x :: rest => if x = c then some rest else none
  | [] => none

def takeDigits : List Char → List Nat × List Char
  | [] => ([], [])
  | c :: rest =>
    match digitVal? c with
    | some d =>
      let p := takeDigits rest
      (d :: p.1, p.2)
    | none => ([], c :: rest)

/-- Value in microseconds of a fraction-digit list: the first six digits,
right-padded with zeros (digits beyond the sixth are truncated away). -/
def microOfDigits (ds : List Nat) : Nat :=
  ((ds ++ [0, 0, 0, 0, 0, 0]).take 6).foldl (fun a d => 10 * a + d) 0

/-- Optional `:SS[.ffffff]` part after the minutes; returns
`(second, microsecond, rest)`. -/
def parseSecFrac : List Char → Option (Nat × Nat × List Char)
  | ':' :: rest =>
    match parse2 rest with
    | none => none
    | some (s, r1) =>
      match r1 with
      | '.' :: r2 =>
        match takeDigits r2 with
        | ([], _) => none
        | (ds, r3) => some (s, microOfDigits ds, r3)
      | ',' :: r2 =>
        match takeDigits r2 with
        | ([], _) => none
        | (ds, r3) => some (s, microOfDigits ds, r3)
      | _ => some (s, 0, r1)
  | cs => some (0, 0, cs)

def mkOffVal (neg : Bool) (h m s : Nat) : Option (Option Int) :=
  if h ≤ 23 ∧ m ≤ 59 ∧ s ≤ 59 then
    some (some ((if neg then -1 else 1) * ((h * 3600 + m * 60 + s : Nat) : Int)))
  else none

/-- The trailing UTC-offset part: empty (naive) or `±HH[:MM[:SS]]`. -/
def parseOffset : List Char → Option (Option Int)
  | [] => some none
  | sgn :: rest =>
    if sgn = '+' ∨ sgn = '-' then
      match parse2 rest with
      | none => none
      | some (oh, r1) =>
        match r1 with
        | [] => mkOffVal (sgn = '-') oh 0 0
        | ':' :: r2 =>
          match parse2 r2 with
          | none => none
          | some (om, r3) =>
            match r3 with
            | [] => mkOffVal (sgn = '-') oh om 0
            | ':' :: r4 =>
              match parse2 r4 with
              | some (os, []) => mkOffVal (sgn = '-') oh om os
              | _ => none
            | _ => none
        | _ => none
    else none

/-- The raw field tuple `(y, mo, d, h, mi, s, micro, offset)` before range
validation. -/
def rawParse (cs : List Char) : Option (Nat × Nat × Nat × Nat × Nat × Nat × Nat × Option Int) :=
  match parse4 cs with
  | none => none
  | some (y, r1) =>
    match expectChar '-' r1 with
    | none => none
    | some r2 =>
      match parse2 r2 with
      | none => none
      | some (mo, r3) =>
        match expectChar '-' r3 with
        | none => none
        | some r4 =>
          match parse2 r4 with
          | none => none
          | some (d, r5) =>
            match r5 with
            | [] => some (y, mo, d, 0, 0, 0, 0, none)
            | sep :: r6 =>
              if sep = 'T' ∨ sep = ' ' then
                match parse2 r6 with
                | none => none
                | some (h, r7) =>
                  match expectChar ':' r7 with
                  | none => none
                  | some r8 =>
                    match parse2 r8 with
                    | none => none
                    | some (mi, r9) =>
                      match parseSecFrac r9 with
                      | none => none
                      | some (s, micro, r10) =>
                        match parseOffset r10 with
                        | none => none
                        | some off => some (y, mo, d, h, mi, s, micro, off)
              else none

def isLeap (y : Nat) : Bool :=
  (y % 4 == 0 && y % 100 != 0) || y % 400 == 0

def daysInMonth (y m : Nat) : Nat :=
  if m = 2 then (if isLeap y then 29 else 28)
  else if m = 4 ∨ m = 6 ∨ m = 9 ∨ m = 11 then 30
  else 31

def offsetOK : Option Int → Bool
  | none => true
  | some o => decide (-86400 < o ∧ o < 86400)

/-- Range validation and construction (`datetime.__new__`). -/
def mkValid (y mo d h mi s micro : Nat) (off : Option Int) : Option PyDateTime :=
  if 1 ≤ y ∧ y ≤ 9999 ∧ 1 ≤ mo ∧ mo ≤ 12 ∧ 1 ≤ d ∧ d ≤ daysInMonth y mo ∧
      h ≤ 23 ∧ mi ≤ 59 ∧ s ≤ 59 ∧ micro ≤ 999999 ∧ offsetOK off = true then
    some ⟨y, mo, d, h, mi, s, micro, off⟩
  else none

/-- `datetime.fromisoformat(str)`. -/
def fromisoformat (str : String) : Option PyDateTime :=
  match rawParse str.toList with
  | none => none
  | some (y, mo, d, h, mi, s, micro, off) => mkValid y mo d h mi s micro off

/-! ## Datetime arithmetic used by the script -/

/-- `dt + timedelta(seconds=k)`: Python adds to the wall-clock fields and
keeps `tzinfo` and the microseconds. -/
def addSeconds (dt : PyDateTime) (k : Int) : PyDateTime :=
  { fromEpochUTC (toEpochSeconds dt + k) dt.microsecond with
    tzOffsetSeconds := dt.tzOffsetSeconds }

/-- `dt.astimezone(UTC)`: reinterpret the instant in UTC.  An aware `dt`
uses its own offset; a naive one would use the system's local offset
`localOff`. -/
def astimezoneUTC (localOff : Int) (dt : PyDateTime) : PyDateTime :=
  fromEpochUTC (toEpochSeconds dt - (dt.tzOffsetSeconds.getD localOff))
    dt.microsecond

/-- The UTC epoch second denoted by an aware ISO-8601 string, after the
script's `replace("Z", "+00:00")` preprocessing (`none` for strings that
fail to parse or are naive). -/
def tsVal (s : String) : Option Int :=
  match fromisoformat (pyReplace s "Z" "+00:00") with
  | none => none
  | some dt =>
    match dt.tzOffsetSeconds with
    | none => none
    | some off => some (toEpochSeconds dt - off)

/-! ## The event stream: `stream_gitlab_events`

`sync.py` fetches `/users/{id}/events` page by page through a generator.
A fetch attempt is a function from the request's query parameters to
either a page of events (the decoded JSON list) or a transport /
`raise_for_status` error.  The generator loop is modelled with fuel (the
`while True` loop is unbounded); `none` means the fuel ran out before the
loop finished. -/

structure RawEvent where
  id? : Option Int
  created_at? : Option String
deriving DecidableEq, Repr

def COMMITS_PER_PAGE : Nat := 100

structure EventsRequest where
  after : String
  per_page : Nat
  page : Nat
  action : String
  sort : String
deriving DecidableEq, Repr

/-- The query parameters of the URL built in `stream_gitlab_events`. -/
def mkRequest (since_date : String) (page : Nat) : EventsRequest :=
  { after := since_date, per_page := COMMITS_PER_PAGE, page := page,
    action := "pushed", sort := "asc" }

/-- What a run of the generator produced: either all yielded events with
natural termination on an empty page, or the events yielded before a fetch
raised. -/
inductive StreamResult where
  | ok (events : List RawEvent)
  | err (yielded : List RawEvent)
deriving DecidableEq, Repr

def streamLoop (respond : EventsRequest → Except Unit (List RawEvent))
    (since_date : String) :
    Nat → Nat → List EventsRequest → List RawEvent →
    Option (List EventsRequest × StreamResult)
  | 0, _, _, _ => none
  | fuel + 1, page, reqs, acc =>
    let req := mkRequest since_date page
    match respond req with
    | .error _ => some (reqs ++ [req], .err acc)
    | .ok [] => some (reqs ++ [req], .ok acc)
    | .ok evs => streamLoop respond since_date fuel (page + 1) (reqs ++ [req]) (acc ++ evs)

/-- `stream_gitlab_events(since_date)`: pages start at 1; also records the
list of requests issued, in order. -/
def stream_gitlab_events (respond : EventsRequest → Except Unit (List RawEvent))
    (since_date : String) (fuel : Nat) :
    Option (List EventsRequest × StreamResult) :=
  streamLoop respond since_date fuel 1 [] []

/-! ## The replicator: `sync_events_and_update_state`

A `Branch` is the state of a line of history: its commit list (oldest
first) together with the content of the state file at its tip (`none` if
the file does not exist).  `git commit` runs with `check=True`; whether
the `i`-th commit invocation succeeds is an oracle `gitCommitOk i`
(failures come from the environment, not from the event data). -/

structure CommitRecord where
  message : String
  authorDate : Option String
  committerDate : Option String
  allowEmpty : Bool
deriving DecidableEq, Repr

structure Branch where
  commits : List CommitRecord
  stateFile : Option String
deriving DecidableEq, Repr

inductive SyncErr where
  | keyError
  | valueError
  | commitError (id : Int)
  | fetchError
deriving DecidableEq, Repr

/-- The empty commit created for one event: message `"GitLab event ID: {id}"`,
`--date` and both `GIT_AUTHOR_DATE` / `GIT_COMMITTER_DATE` set to
`created_at` formatted as `%Y-%m-%d %H:%M:%S`. -/
def mkEventCommit (cid : Int) (commit_date : String) : CommitRecord :=
  { message := "GitLab event ID: " ++ toString cid,
    authorDate := some commit_date, committerDate := some commit_date,
    allowEmpty := true }

/-- The commit recording the state-file update. -/
def mkMarkerCommit (last_event_date : String) : CommitRecord :=
  { message := "CI: Update sync marker to " ++ last_event_date,
    authorDate := none, committerDate := none, allowEmpty := false }

/-- The `for event in events:` loop of `sync_events_and_update_state`,
tracking `last_event_date` and `commit_count`.  `event["id"]` or
`event["created_at"]` missing raises `KeyError`; `datetime.fromisoformat`
raises `ValueError` on a malformed timestamp; a failing `git commit`
raises `CalledProcessError`, re-raised after logging.  In every case the
loop aborts with the commits created so far already in the branch. -/
def syncLoop (gitCommitOk : Nat → Bool) :
    List RawEvent → Nat → Option String → Nat → Branch →
    Branch × Except SyncErr (Option String × Nat)
  | [], _, led, cnt, br => (br, .ok (led, cnt))
  | e :: rest, idx, led, cnt, br =>
    match e.id? with
    | none => (br, .error .keyError)
    | some cid =>
      match e.created_at? with
      | none => (br, .error .keyError)
      | some cds =>
        match fromisoformat (pyReplace cds "Z" "+00:00") with
        | none => (br, .error .valueError)
        | some dt =>
          let commit_date := strftimeNaive dt
          if gitCommitOk idx then
            syncLoop gitCommitOk rest (idx + 1) (some cds) (cnt + 1)
              { br with commits := br.commits ++ [mkEventCommit cid commit_date] }
          else (br, .error (.commitError cid))

/-- `sync_events_and_update_state(events, repo_path)`.  After the loop:
zero commits is a no-op returning 0; otherwise the next cursor is
`last_event_date + 1 second`, normalized to UTC with `microsecond=0`,
written to the state file in `isoformat()` with `+00:00` replaced by `Z`;
the file is staged and committed only when `git diff --cached --quiet`
reports a change against the tip. -/
def sync_events_and_update_state (gitCommitOk : Nat → Bool) (localOff : Int)
    (events : List RawEvent) (repo : Branch) : Branch × Except SyncErr Nat :=
  match syncLoop gitCommitOk events 0 none 0 repo with
  | (br, .error e) => (br, .error e)
  | (br, .ok (led, cnt)) =>
    if cnt = 0 then (br, .ok 0)
    else
      match led with
      | none => (br, .error .valueError)
      | some last_event_date =>
        match fromisoformat (pyReplace last_event_date "Z" "+00:00") with
        | none => (br, .error .valueError)
        | some dt =>
          let next_start_dt := addSeconds dt 1
          let next_start_dt_utc :=
            { astimezoneUTC localOff next_start_dt with microsecond := 0 }
          let cursor := pyReplace (pyIsoformat next_start_dt_utc) "+00:00" "Z"
          ({ commits :=
               if br.stateFile = some cursor then br.commits
               else br.commits ++ [mkMarkerCommit last_event_date],
             stateFile := some cursor }, .ok cnt)

/-- Feeding the lazy generator into the replicator: if a page fetch raised
after yielding a prefix, the replicator processes exactly that prefix and
then the exception surfaces at its `for` loop (so the post-loop state-file
update is never reached). -/
def syncOverStream (gitCommitOk : Nat → Bool) (localOff : Int)
    (sres : StreamResult) (repo : Branch) : Branch × Except SyncErr Nat :=
  match sres with
  | .ok evs => sync_events_and_update_state gitCommitOk localOff evs repo
  | .err yielded =>
    match syncLoop gitCommitOk yielded 0 none 0 repo with
    | (br, .error e) => (br, .error e)
    | (br, .ok _) => (br, .error .fetchError)

/-! ## The orchestrator: `main` -/

/-- `DEFAULT_START_DATE`: `datetime.now(UTC).replace(microsecond=0) -
timedelta(days=365)`, formatted `%Y-%m-%dT%H:%M:%SZ`.  Parametrized by the
current instant (epoch second and microsecond), evaluated once per run. -/
def DEFAULT_START_DATE (nowEpoch : Int) (nowMicro : Nat) : String :=
  strftimeZform
    (addSeconds { fromEpochUTC nowEpoch nowMicro with microsecond := 0 }
      (-(365 * 86400)))

/-- Reading the start date in `main`: the stripped state-file content when
the file exists, `DEFAULT_START_DATE` on `FileNotFoundError`. -/
def readStartDate (stateFileContent : Option String) (nowEpoch : Int)
    (nowMicro : Nat) : String :=
  match stateFileContent with
  | some content => pyStrip content
  | none => DEFAULT_START_DATE nowEpoch nowMicro

/-- The `--no-ff` merge commit of the sync branch into the target branch. -/
def mkMergeCommit (branch_name : String) : CommitRecord :=
  { message := "Merge synchronization branch " ++ branch_name,
    authorDate := none, committerDate := none, allowEmpty := false }

/-- Observable outcome of one run of `main`: process exit status, whether
`git merge` / `git push` were attempted, the final local target branch,
the final remote target branch, and the local sync branch (`none` once
deleted). -/
structure MainOutcome where
  exitCode : Nat
  pushed : Bool
  mergeAttempted : Bool
  localTarget : Branch
  remote : Branch
  syncBranch : Option Branch
deriving DecidableEq, Repr

/-- `main()` after the environment checks: clone, prepare the target
branch, create the sync branch, read the cursor, stream and replay the
events, then the no-op cleanup block, the merge block, and the push.
`remote` is the remote target branch at clone time and `branch_name` the
freshly generated `sync/gitlab-…` name (never equal to the target branch
name). -/
def runMain (respond : EventsRequest → Except Unit (List RawEvent)) (fuel : Nat)
    (gitCommitOk : Nat → Bool) (localOff : Int) (nowEpoch : Int) (nowMicro : Nat)
    (remote : Branch) (branch_name : String) : Option MainOutcome :=
  -- clone; fetch origin; checkout the target branch; pull
  let localTarget := remote
  -- git checkout -b branch_name: the sync branch starts at the target tip
  let syncBranch0 := localTarget
  -- read the state file from the working copy, or fall back to the default
  let start_date := readStartDate localTarget.stateFile nowEpoch nowMicro
  match stream_gitlab_events respond start_date fuel with
  | none => none
  | some (_reqs, sres) =>
    match syncOverStream gitCommitOk localOff sres syncBranch0 with
    | (syncBr, .error _) =>
      -- the exception propagates to the outer handler: error logged,
      -- sys.exit(1); neither the merge nor the push was attempted and the
      -- sync branch is left behind with whatever was committed to it
      some { exitCode := 1, pushed := false, mergeAttempted := false,
             localTarget := localTarget, remote := remote,
             syncBranch := some syncBr }
    | (syncBr, .ok commit_count) =>
      -- "# Nothing to merge": checkout the target branch and delete the
      -- sync branch — note that the function does NOT return here
      let syncAfterCleanup : Option Branch :=
        if commit_count = 0 then none else some syncBr
      -- merge block, reached unconditionally: checkout the target branch,
      -- then `git merge --no-ff branch_name`
      match syncAfterCleanup with
      | none =>
        -- the sync branch was just deleted, so the merge fails with
        -- CalledProcessError; it is re-raised and the outer handler exits 1
        some { exitCode := 1, pushed := false, mergeAttempted := true,
               localTarget := localTarget, remote := remote,
               syncBranch := none }
      | some sb =>
        -- the target tip is an ancestor of the sync branch, so the
        -- `--no-ff` merge adds a merge commit; push; delete the sync branch
        let merged : Branch :=
          { commits := sb.commits ++ [mkMergeCommit branch_name],
            stateFile := sb.stateFile }
        some { exitCode := 0, pushed := true, mergeAttempted := true,
               localTarget := merged, remote := merged, syncBranch := none }

/-! ## Derived notions used to state the claims -/

/-- An event record the replicator accepts: both fields present and
`created_at` parseable after the `Z` replacement. -/
def evValid (e : RawEvent) : Bool :=
  e.id?.isSome &&
    (match e.created_at? with
     | none => false
     | some s => (fromisoformat (pyReplace s "Z" "+00:00")).isSome)

/-- The UTC epoch second of an event's `created_at` (for aware timestamps). -/
def evEpoch? (e : RawEvent) : Option Int :=
  match e.created_at? with
  | none => none
  | some s => tsVal s

/-- The commit the replicator creates for a (valid) event. -/
def mkC (e : RawEvent) : CommitRecord :=
  mkEventCommit (e.id?.getD 0)
    (match e.created_at? with
     | none => ""
     | some s =>
       match fromisoformat (pyReplace s "Z" "+00:00") with
       | none => ""
       | some dt => strftimeNaive dt)

def listMax : List Int → Int
  | [] => 0
  | x :: xs => xs.foldl max x

/-- Written from the spec's words (§4.3 step 4): the next cursor is
`max(created_at of replayed events) + 1 second`, normalized to UTC, second
precision, canonical `Z`-suffixed form. -/
def specNextCursor (epochs : List Int) : String :=
  strftimeZform (fromEpochUTC (listMax epochs + 1) 0)

/-- Event-record literal, for concrete scenarios. -/
def mkEv (i : Int) (s : String) : RawEvent :=
  { id? := some i, created_at? := some s }

/-- The value of `last_event_date` after the replication loop, starting
from `led`. -/
def lastLed (led : Option String) : List RawEvent → Option String
  | [] => led
  | e :: rest => lastLed e.created_at? rest

/-! ## Helper lemmas -/

theorem startsWith_self (l : List Char) : startsWith l l = true := by
  induction l with
  | nil => rfl
  | cons c cs ih => simp [startsWith, ih]

theorem replCharsF_nil (pat rep : List Char) (fuel : Nat) :
    replCharsF pat rep fuel [] = [] := by
  cases fuel <;> rfl

theorem replCharsF_append_pat (p : Char) (ps rep l : List Char) (fuel : Nat)
    (h : ∀ c ∈ l, c ≠ p) (hf : l.length + 1 ≤ fuel) :
    replCharsF (p :: ps) rep fuel (l ++ (p :: ps)) = l ++ rep := by
  induction l generalizing fuel with
  | nil =>
    obtain ⟨f, rfl⟩ : ∃ f, fuel = f + 1 := ⟨fuel - 1, by omega⟩
    rw [List.nil_append, replCharsF]
    rw [if_pos ⟨by simp, startsWith_self _⟩]
    simp [replCharsF_nil]
  | cons c l ih =>
    obtain ⟨f, rfl⟩ : ∃ f, fuel = f + 1 := ⟨fuel - 1, by omega⟩
    have hcp : (p == c) = false := by
      have := h c (List.mem_cons_self c l)
      simp [BEq.comm]
      exact fun hh => (this hh.symm).elim
    rw [List.cons_append, replCharsF]
    rw [if_neg]
    · rw [ih f (fun x hx => h x (List.mem_cons_of_mem _ hx))
          (by simp only [List.length_cons] at hf; omega)]
      rfl
    · simp [startsWith, hcp]

theorem dChar_prop (n : Nat) : pySpace (dChar n) = false ∧ dChar n ≠ '+' ∧
    dChar n ≠ '\n' := by
  have h : n % 10 < 10 := Nat.mod_lt _ (by norm_num)
  unfold dChar
  generalize n % 10 = d at h
  interval_cases d <;> exact ⟨rfl, by decide, by decide⟩

theorem pad2_prop (P : Char → Prop) (hdig : ∀ n, P (dChar n)) (n : Nat) :
    ∀ c ∈ pad2 n, P c := by
  intro c hc
  rcases List.mem_cons.mp hc with rfl | hc
  · exact hdig _
  · rcases List.mem_cons.mp hc with rfl | hc
    · exact hdig _
    · exact absurd hc (List.not_mem_nil c)

theorem pad4_prop (P : Char → Prop) (hdig : ∀ n, P (dChar n)) (n : Nat) :
    ∀ c ∈ pad4 n, P c := by
  intro c hc
  rcases List.mem_cons.mp hc with rfl | hc
  · exact hdig _
  · rcases List.mem_cons.mp hc with rfl | hc
    · exact hdig _
    · rcases List.mem_cons.mp hc with rfl | hc
      · exact hdig _
      · rcases List.mem_cons.mp hc with rfl | hc
        · exact hdig _
        · exact absurd hc (List.not_mem_nil c)

/-- Every character of the `YYYY-MM-DDTHH:MM:SS` core satisfies any
property that digits, `-`, `:` and `T` satisfy. -/
theorem strfBase_prop (P : Char → Prop) (hdig : ∀ n, P (dChar n))
    (hdash : P '-') (hcolon : P ':') (hT : P 'T') (dt : PyDateTime) :
    ∀ c ∈ dateChars dt ++ 'T' :: timeChars dt, P c := by
  intro c hc
  rcases List.mem_append.mp hc with h | h
  · rcases List.mem_append.mp h with h | h
    · rcases List.mem_append.mp h with h | h
      · exact pad4_prop P hdig _ _ h
      · rcases List.mem_cons.mp h with rfl | h
        · exact hdash
        · exact pad2_prop P hdig _ _ h
    · rcases List.mem_cons.mp h with rfl | h
      · exact hdash
      · exact pad2_prop P hdig _ _ h
  · rcases List.mem_cons.mp h with rfl | h
    · exact hT
    · rcases List.mem_append.mp h with h | h
      · rcases List.mem_append.mp h with h | h
        · exact pad2_prop P hdig _ _ h
        · rcases List.mem_cons.mp h with rfl | h
          · exact hcolon
          · exact pad2_prop P hdig _ _ h
      · rcases List.mem_cons.mp h with rfl | h
        · exact hcolon
        · exact pad2_prop P hdig _ _ h

theorem dropWhile_false (p : Char → Bool) (l : List Char)
    (h : ∀ c ∈ l, p c = false) : l.dropWhile p = l := by
  cases l with
  | nil => rfl
  | cons c cs => simp [List.dropWhile_cons, h c (List.mem_cons_self c cs)]

/-- `str.strip()` is the identity on strings with no whitespace. -/
theorem pyStrip_eq_self (l : List Char) (h : ∀ c ∈ l, pySpace c = false) :
    pyStrip (String.mk l) = String.mk l := by
  have h2 : ∀ c ∈ l.reverse, pySpace c = false := by
    intro c hc; exact h c (List.mem_reverse.mp hc)
  simp only [pyStrip, String.toList]
  rw [dropWhile_false _ _ h, dropWhile_false _ _ h2, List.reverse_reverse]

/-- `isoformat()` of a UTC, whole-second datetime. -/
theorem pyIsoformat_utc0 (dt : PyDateTime) (hm : dt.microsecond = 0)
    (hz : dt.tzOffsetSeconds = some 0) :
    pyIsoformat dt =
      String.mk ((dateChars dt ++ 'T' :: timeChars dt) ++
        ('+' :: ['0', '0', ':', '0', '0'])) := by
  have hoff : offsetChars 0 = '+' :: ['0', '0', ':', '0', '0'] := by decide
  simp [pyIsoformat, hm, hz, hoff]

/-- The script's cursor rendering
`isoformat().replace("+00:00", "Z")` coincides with the canonical
`%Y-%m-%dT%H:%M:%SZ` form, and `strip()` then reads it back unchanged. -/
theorem cursorString_eq (dt : PyDateTime) (hm : dt.microsecond = 0)
    (hz : dt.tzOffsetSeconds = some 0) :
    pyReplace (pyIsoformat dt) "+00:00" "Z" = strftimeZform dt ∧
    pyStrip (strftimeZform dt) = strftimeZform dt := by
  have hbase := strfBase_prop (fun c => pySpace c = false ∧ c ≠ '+' ∧ c ≠ '\n')
    (fun n => dChar_prop n) ⟨rfl, by decide, by decide⟩ ⟨rfl, by decide, by decide⟩
    ⟨rfl, by decide, by decide⟩ dt
  constructor
  · rw [pyIsoformat_utc0 dt hm hz]
    simp only [pyReplace, String.toList]
    rw [replCharsF_append_pat '+' ['0', '0', ':', '0', '0'] ['Z']
      (dateChars dt ++ 'T' :: timeChars dt) _
      (fun c hc => (hbase c hc).2.1) (by simp only [List.length_append]; omega)]
    simp [strftimeZform, List.append_assoc]
  · have : ∀ c ∈ dateChars dt ++ 'T' :: timeChars dt ++ ['Z'],
        pySpace c = false := by
      intro c hc
      rcases List.mem_append.mp hc with h | h
      · exact (hbase c h).1
      · rcases List.mem_cons.mp h with rfl | h
        · rfl
        · exact absurd h (List.not_mem_nil c)
    exact pyStrip_eq_self _ this

theorem lastLed_concat (led : Option String) (l : List RawEvent) (e : RawEvent) :
    lastLed led (l ++ [e]) = e.created_at? := by
  induction l generalizing led with
  | nil => rfl
  | cons x xs ih => exact ih _

/-- The replication loop never touches the state file. -/
theorem syncLoop_stateFile (ok : Nat → Bool) (events : List RawEvent) :
    ∀ idx led cnt br,
    (syncLoop ok events idx led cnt br).1.stateFile = br.stateFile := by
  induction events with
  | nil => intro idx led cnt br; rfl
  | cons e rest ih =>
    intro idx led cnt br
    rcases he : e.id? with _ | cid
    · simp [syncLoop, he]
    rcases hc : e.created_at? with _ | cds
    · simp [syncLoop, he, hc]
    rcases hp : fromisoformat (pyReplace cds "Z" "+00:00") with _ | dt
    · simp [syncLoop, he, hc, hp]
    by_cases hok : ok idx = true
    · simp only [syncLoop, he, hc, hp, hok, if_true]
      exact ih _ _ _ _
    · simp [syncLoop, he, hc, hp, hok]

/-- Splitting the replication loop over an appended list (success head). -/
theorem syncLoop_append_ok (ok : Nat → Bool) (l1 l2 : List RawEvent) :
    ∀ idx led cnt br br1 led1 cnt1,
    syncLoop ok l1 idx led cnt br = (br1, .ok (led1, cnt1)) →
    syncLoop ok (l1 ++ l2) idx led cnt br =
      syncLoop ok l2 (idx + l1.length) led1 cnt1 br1 := by
  induction l1 with
  | nil =>
    intro idx led cnt br br1 led1 cnt1 h
    simp only [syncLoop, Prod.mk.injEq, Except.ok.injEq] at h
    obtain ⟨rfl, rfl, rfl⟩ := h
    simp
  | cons e rest ih =>
    intro idx led cnt br br1 led1 cnt1 h
    rcases he : e.id? with _ | cid
    · simp [syncLoop, he] at h
    rcases hc : e.created_at? with _ | cds
    · simp [syncLoop, he, hc] at h
    rcases hp : fromisoformat (pyReplace cds "Z" "+00:00") with _ | dt
    · simp [syncLoop, he, hc, hp] at h
    by_cases hok : ok idx = true
    · simp only [syncLoop, he, hc, hp, hok, if_true, List.cons_append] at h ⊢
      have hres := ih _ _ _ _ _ _ _ h
      rw [List.length_cons,
        show idx + (rest.length + 1) = idx + 1 + rest.length from by omega]
      exact hres
    · simp [syncLoop, he, hc, hp, hok] at h

/-- Splitting the replication loop over an appended list (failure head). -/
theorem syncLoop_append_err (ok : Nat → Bool) (l1 l2 : List RawEvent) :
    ∀ idx led cnt br br1 err,
    syncLoop ok l1 idx led cnt br = (br1, .error err) →
    syncLoop ok (l1 ++ l2) idx led cnt br = (br1, .error err) := by
  induction l1 with
  | nil =>
    intro idx led cnt br br1 err h
    simp [syncLoop] at h
  | cons e rest ih =>
    intro idx led cnt br br1 err h
    rcases he : e.id? with _ | cid
    · simp only [syncLoop, he, List.cons_append] at h ⊢; exact h
    rcases hc : e.created_at? with _ | cds
    · simp only [syncLoop, he, hc, List.cons_append] at h ⊢; exact h
    rcases hp : fromisoformat (pyReplace cds "Z" "+00:00") with _ | dt
    · simp only [syncLoop, he, hc, hp, List.cons_append] at h ⊢; exact h
    by_cases hok : ok idx = true
    · simp only [syncLoop, he, hc, hp, hok, if_true, List.cons_append] at h ⊢
      exact ih _ _ _ _ _ _ h
    · simp only [syncLoop, he, hc, hp, hok, if_false, List.cons_append,
        Bool.false_eq_true] at h ⊢
      exact h

/-- When every event is well-formed and the first `events.length` git
commit invocations from index `idx` succeed, the loop appends exactly one
commit per event, in order. -/
theorem syncLoop_ok_of_valid (ok : Nat → Bool) (events : List RawEvent)
    (hv : ∀ e ∈ events, evValid e = true) :
    ∀ idx led cnt br, (∀ j, j < events.length → ok (idx + j) = true) →
    syncLoop ok events idx led cnt br =
      ({ br with commits := br.commits ++ events.map mkC },
       .ok (lastLed led events, cnt + events.length)) := by
  induction events with
  | nil => intro idx led cnt br _; simp [syncLoop, lastLed]
  | cons e rest ih =>
    intro idx led cnt br hok
    have hvE := hv e (List.mem_cons_self e rest)
    simp only [evValid, Bool.and_eq_true] at hvE
    obtain ⟨hid0, hca⟩ := hvE
    obtain ⟨cid, hid⟩ := Option.isSome_iff_exists.mp hid0
    rcases hc : e.created_at? with _ | cds
    · rw [hc] at hca; simp at hca
    rw [hc] at hca
    obtain ⟨dt, hdt⟩ := Option.isSome_iff_exists.mp hca
    have hmkC : mkC e = mkEventCommit cid (strftimeNaive dt) := by
      simp [mkC, hid, hc, hdt]
    have hok0 : ok idx = true := by
      have := hok 0 (by simp)
      simpa using this
    have hokr : ∀ j, j < rest.length → ok (idx + 1 + j) = true := by
      intro j hj
      have := hok (j + 1) (by simp only [List.length_cons]; omega)
      rwa [show idx + (j + 1) = idx + 1 + j from by omega] at this
    simp only [syncLoop, hid, hc, hdt, hok0, if_true]
    rw [ih (fun x hx => hv x (List.mem_cons_of_mem _ hx)) _ _ _ _ hokr]
    have harith : cnt + 1 + rest.length = cnt + (rest.length + 1) := by omega
    simp only [lastLed, hc, List.map_cons, hmkC, List.length_cons, harith,
      List.append_assoc, List.singleton_append]

/-- A loop run that returns with an unchanged commit count did nothing:
the event list was empty. -/
theorem syncLoop_ok_inv (ok : Nat → Bool) (events : List RawEvent) :
    ∀ idx led cnt br br1 led1 cnt1,
    syncLoop ok events idx led cnt br = (br1, .ok (led1, cnt1)) →
    cnt ≤ cnt1 ∧ (cnt1 = cnt → (br1 = br ∧ led1 = led ∧ events = [])) := by
  induction events with
  | nil =>
    intro idx led cnt br br1 led1 cnt1 h
    simp only [syncLoop, Prod.mk.injEq, Except.ok.injEq] at h
    obtain ⟨rfl, rfl, rfl⟩ := h
    exact ⟨le_refl _, fun _ => ⟨rfl, rfl, rfl⟩⟩
  | cons e rest ih =>
    intro idx led cnt br br1 led1 cnt1 h
    rcases he : e.id? with _ | cid
    · simp [syncLoop, he] at h
    rcases hc : e.created_at? with _ | cds
    · simp [syncLoop, he, hc] at h
    rcases hp : fromisoformat (pyReplace cds "Z" "+00:00") with _ | dt
    · simp [syncLoop, he, hc, hp] at h
    by_cases hok : ok idx = true
    · simp only [syncLoop, he, hc, hp, hok, if_true] at h
      obtain ⟨h1, _⟩ := ih _ _ _ _ _ _ _ h
      exact ⟨by omega, fun hcc => absurd hcc (by omega)⟩
    · simp [syncLoop, he, hc, hp, hok] at h

theorem daysInMonth_le_31 (y m : Nat) : daysInMonth y m ≤ 31 := by
  unfold daysInMonth
  split_ifs <;> simp

/-- Field ranges guaranteed by a successful `fromisoformat`. -/
theorem fromisoformat_fields (s : String) (dt : PyDateTime)
    (h : fromisoformat s = some dt) :
    1 ≤ dt.year ∧ dt.year ≤ 9999 ∧ 1 ≤ dt.month ∧ dt.month ≤ 12 ∧
    1 ≤ dt.day ∧ dt.day ≤ 31 ∧ dt.hour ≤ 23 ∧ dt.minute ≤ 59 ∧
    dt.second ≤ 59 ∧
    (∀ off, dt.tzOffsetSeconds = some off → -86400 < off ∧ off < 86400) := by
  unfold fromisoformat at h
  rcases hr : rawParse s.toList with _ | ⟨y, mo, d, hh, mi, ss, micro, off⟩
  · rw [hr] at h; simp at h
  rw [hr] at h
  simp only [mkValid] at h
  split_ifs at h with hcond
  · obtain ⟨h1, h2, h3, h4, h5, h6, h7, h8, h9, _, hoffOK⟩ := hcond
    obtain rfl : dt = ⟨y, mo, d, hh, mi, ss, micro, off⟩ := by
      exact (Option.some.injEq _ _ ▸ h).symm
    refine ⟨h1, h2, h3, h4, h5, le_trans h6 (daysInMonth_le_31 y mo),
      h7, h8, h9, ?_⟩
    intro o ho
    cases off with
    | none => simp at ho
    | some o2 =>
      obtain rfl : o2 = o := by simpa using ho
      simpa [offsetOK] using hoffOK

/-- The wall-clock epoch of any parsed datetime is in Python's range. -/
theorem toEpoch_range_of_parse (s : String) (dt : PyDateTime)
    (h : fromisoformat s = some dt) :
    minEpoch ≤ toEpochSeconds dt ∧ toEpochSeconds dt ≤ maxEpoch := by
  obtain ⟨h1, h2, h3, h4, h5, h6, h7, h8, h9, _⟩ := fromisoformat_fields s dt h
  have hd := daysFromCivil_bounds dt.year dt.month dt.day
    (by omega) (by omega) (by omega) (by omega) (by omega) (by omega)
  unfold toEpochSeconds minEpoch maxEpoch
  push_cast
  omega

theorem toEpochSeconds_tzUpdate (dt : PyDateTime) (o : Option Int) :
    toEpochSeconds { dt with tzOffsetSeconds := o } = toEpochSeconds dt := rfl

theorem fromEpochUTC_micro0 (t : Int) (m : Nat) :
    { fromEpochUTC t m with microsecond := 0 } = fromEpochUTC t 0 := rfl

/-- `(dt + timedelta(seconds=1)).astimezone(UTC).replace(microsecond=0)`
for an aware `dt` is the UTC rendering of the next UTC epoch second. -/
theorem cursor_step (dt : PyDateTime) (off : Int) (loff : Int)
    (hoff : dt.tzOffsetSeconds = some off)
    (h1 : minEpoch ≤ toEpochSeconds dt + 1)
    (h2 : toEpochSeconds dt + 1 ≤ maxEpoch) :
    { astimezoneUTC loff (addSeconds dt 1) with microsecond := 0 } =
      fromEpochUTC (toEpochSeconds dt + 1 - off) 0 := by
  unfold astimezoneUTC addSeconds
  rw [toEpochSeconds_tzUpdate]
  rw [(toEpochSeconds_fromEpochUTC (toEpochSeconds dt + 1) dt.microsecond h1 h2).1]
  rw [show ({ fromEpochUTC (toEpochSeconds dt + 1) dt.microsecond with
      tzOffsetSeconds := dt.tzOffsetSeconds } : PyDateTime).tzOffsetSeconds =
      dt.tzOffsetSeconds from rfl]
  rw [hoff]
  rw [show ({ fromEpochUTC (toEpochSeconds dt + 1) dt.microsecond with
      tzOffsetSeconds := dt.tzOffsetSeconds } : PyDateTime).microsecond =
      dt.microsecond from rfl]
  rw [show (some off).getD loff = off from rfl]
  exact fromEpochUTC_micro0 _ _

theorem foldl_max_concat_sorted (x : Int) (as : List Int) :
    ∀ a : Int, List.Chain' (· ≤ ·) (a :: (as ++ [x])) →
    List.foldl max a (as ++ [x]) = x := by
  induction as with
  | nil =>
    intro a h
    have hax : a ≤ x := (List.chain'_cons.mp h).1
    simp [max_eq_right hax]
  | cons b bs ih =>
    intro a h
    have hab : a ≤ b := (List.chain'_cons.mp h).1
    have htl : List.Chain' (· ≤ ·) (b :: (bs ++ [x])) := (List.chain'_cons.mp h).2
    simp only [List.cons_append, List.foldl_cons, max_eq_right hab]
    exact ih b htl

theorem listMax_concat_sorted (l : List Int) (x : Int)
    (hs : List.Chain' (· ≤ ·) (l ++ [x])) : listMax (l ++ [x]) = x := by
  cases l with
  | nil => rfl
  | cons a l2 =>
    simp only [List.cons_append] at hs
    simp only [List.cons_append, listMax]
    exact foldl_max_concat_sorted x l2 a hs

/-- The replicator on an empty event sequence is a strict no-op. -/
theorem sync_empty (ok : Nat → Bool) (loff : Int) (br : Branch) :
    sync_events_and_update_state ok loff [] br = (br, .ok 0) := rfl

/-- Success characterization of the replicator on a non-empty, well-formed
event sequence: one commit per event in order, the cursor written once,
the marker commit staged exactly when the file content changed. -/
theorem sync_ok (ok : Nat → Bool) (loff : Int) (l : List RawEvent)
    (e : RawEvent) (br : Branch)
    (hv : ∀ x ∈ l ++ [e], evValid x = true) (hok : ∀ i, ok i = true)
    (s : String) (dt : PyDateTime)
    (hs : e.created_at? = some s)
    (hdt : fromisoformat (pyReplace s "Z" "+00:00") = some dt) :
    sync_events_and_update_state ok loff (l ++ [e]) br =
      ({ commits := br.commits ++ (l ++ [e]).map mkC ++
           (if br.stateFile = some (pyReplace
               (pyIsoformat { astimezoneUTC loff (addSeconds dt 1) with
                 microsecond := 0 }) "+00:00" "Z")
            then [] else [mkMarkerCommit s]),
         stateFile := some (pyReplace
           (pyIsoformat { astimezoneUTC loff (addSeconds dt 1) with
             microsecond := 0 }) "+00:00" "Z") },
       .ok (l.length + 1)) := by
  have hloop := syncLoop_ok_of_valid ok (l ++ [e]) hv 0 none 0 br
    (fun j _ => by rw [Nat.zero_add]; exact hok j)
  unfold sync_events_and_update_state
  rw [hloop]
  rw [lastLed_concat]
  simp only [List.length_append, List.length_cons, List.length_nil,
    Nat.zero_add]
  rw [if_neg (by omega), hs]
  simp only [hdt]
  by_cases hch : br.stateFile = some (pyReplace
      (pyIsoformat { astimezoneUTC loff (addSeconds dt 1) with
        microsecond := 0 }) "+00:00" "Z")
  · simp [hch]
  · simp [hch]

/-- If the replicator returns success with count 0 the run was empty and
nothing changed; if the state file changed, at least one event was
replayed. -/
theorem sync_ok_inv (ok : Nat → Bool) (loff : Int) (events : List RawEvent)
    (br br1 : Branch) (cnt : Nat)
    (h : sync_events_and_update_state ok loff events br = (br1, .ok cnt)) :
    (cnt = 0 → br1 = br ∧ events = []) ∧
    (br1.stateFile ≠ br.stateFile → 1 ≤ cnt) := by
  unfold sync_events_and_update_state at h
  rcases hsl : syncLoop ok events 0 none 0 br with ⟨brL, r⟩
  rw [hsl] at h
  cases r with
  | error e => simp at h
  | ok p =>
    obtain ⟨led, cntL⟩ := p
    dsimp only at h
    by_cases hc0 : cntL = 0
    · rw [if_pos hc0] at h
      injection h with h1 h2
      injection h2 with h3
      subst h1
      subst hc0
      obtain ⟨_, h4⟩ := syncLoop_ok_inv ok events 0 none 0 br brL led 0 hsl
      obtain ⟨rfl, _, rfl⟩ := h4 rfl
      exact ⟨fun _ => ⟨rfl, rfl⟩, fun hne => absurd rfl hne⟩
    · rw [if_neg hc0] at h
      cases led with
      | none => simp at h
      | some last_event_date =>
        cases hp : fromisoformat (pyReplace last_event_date "Z" "+00:00") with
        | none => simp only [hp] at h; simp at h
        | some dt =>
          simp only [hp] at h
          injection h with h1 h2
          injection h2 with h2
          exact ⟨fun h0 => absurd (h2.trans h0) hc0, fun _ => by omega⟩

/-- A failing `git commit` for the event at position `pre.length` aborts
the replicator with that event's id; the branch keeps exactly the commits
of the preceding events and the state file is untouched. -/
theorem sync_commit_fail (ok : Nat → Bool) (loff : Int)
    (pre : List RawEvent) (e : RawEvent) (post : List RawEvent) (br : Branch)
    (hvpre : ∀ x ∈ pre, evValid x = true)
    (hokpre : ∀ j, j < pre.length → ok j = true)
    (hfail : ok pre.length = false)
    (cid : Int) (s : String) (dt : PyDateTime)
    (hid : e.id? = some cid) (hs : e.created_at? = some s)
    (hdt : fromisoformat (pyReplace s "Z" "+00:00") = some dt) :
    sync_events_and_update_state ok loff (pre ++ e :: post) br =
      ({ br with commits := br.commits ++ pre.map mkC },
       .error (.commitError cid)) := by
  have hloop := syncLoop_ok_of_valid ok pre hvpre 0 none 0 br
    (fun j hj => by rw [Nat.zero_add]; exact hokpre j hj)
  have happ := syncLoop_append_ok ok pre (e :: post) 0 none 0 br _ _ _ hloop
  have hstep : syncLoop ok (e :: post) (0 + pre.length) (lastLed none pre)
      (0 + pre.length) { br with commits := br.commits ++ pre.map mkC } =
      ({ br with commits := br.commits ++ pre.map mkC },
       .error (.commitError cid)) := by
    simp [syncLoop, hid, hs, hdt, hfail]
  rw [hstep] at happ
  unfold sync_events_and_update_state
  rw [happ]

/-- Natural termination of the pager: with `n` non-empty pages followed by
an empty one, the loop requests pages `startPage, …, startPage + n` in
order and yields the concatenation of the pages. -/
theorem streamLoop_pages_ok (respond : EventsRequest → Except Unit (List RawEvent))
    (since : String) (pages : List (List RawEvent)) :
    ∀ startPage fuel reqs acc,
    (∀ i (hi : i < pages.length),
      respond (mkRequest since (startPage + i)) = .ok pages[i]) →
    (∀ p ∈ pages, p ≠ []) →
    respond (mkRequest since (startPage + pages.length)) = .ok [] →
    pages.length + 1 ≤ fuel →
    streamLoop respond since fuel startPage reqs acc =
      some (reqs ++ (List.range' startPage (pages.length + 1)).map (mkRequest since),
        .ok (acc ++ pages.flatten)) := by
  induction pages with
  | nil =>
    intro startPage fuel reqs acc hresp hne hend hf
    obtain ⟨f, rfl⟩ : ∃ f, fuel = f + 1 := ⟨fuel - 1, by omega⟩
    have h0 : respond (mkRequest since startPage) = .ok [] := by
      simpa using hend
    simp [streamLoop, h0, List.range']
  | cons p ps ih =>
    intro startPage fuel reqs acc hresp hne hend hf
    obtain ⟨f, rfl⟩ : ∃ f, fuel = f + 1 :=
      ⟨fuel - 1, by simp only [List.length_cons] at hf; omega⟩
    have h0 : respond (mkRequest since startPage) = .ok p := by
      have := hresp 0 (by simp)
      simpa using this
    obtain ⟨x, xs, rfl⟩ : ∃ x xs, p = x :: xs := by
      rcases p with _ | ⟨x, xs⟩
      · exact absurd rfl (hne [] (List.mem_cons_self _ _))
      · exact ⟨x, xs, rfl⟩
    simp only [streamLoop, h0]
    rw [ih (startPage + 1) f (reqs ++ [mkRequest since startPage])
      (acc ++ (x :: xs))
      (fun i hi => by
        have := hresp (i + 1) (by simp only [List.length_cons]; omega)
        rw [show startPage + (i + 1) = startPage + 1 + i from by omega] at this
        simpa using this)
      (fun q hq => hne q (List.mem_cons_of_mem _ hq))
      (by
        rw [show startPage + 1 + ps.length =
          startPage + ((x :: xs) :: ps).length from by
            simp only [List.length_cons]; omega]
        exact hend)
      (by simp only [List.length_cons] at hf ⊢; omega)]
    have hr : List.range' startPage (((x :: xs) :: ps).length + 1) =
        startPage :: List.range' (startPage + 1) (ps.length + 1) := by
      simp only [List.length_cons]
      exact List.range'_succ startPage (ps.length + 1) 1
    rw [hr]
    simp [List.append_assoc]

/-- A failing page fetch after `n` non-empty pages: the loop requests
pages `startPage, …, startPage + n`, the last one raises, and the stream
aborts having yielded the concatenation of the earlier pages. -/
theorem streamLoop_pages_err (respond : EventsRequest → Except Unit (List RawEvent))
    (since : String) (pages : List (List RawEvent)) :
    ∀ startPage fuel reqs acc,
    (∀ i (hi : i < pages.length),
      respond (mkRequest since (startPage + i)) = .ok pages[i]) →
    (∀ p ∈ pages, p ≠ []) →
    respond (mkRequest since (startPage + pages.length)) = .error () →
    pages.length + 1 ≤ fuel →
    streamLoop respond since fuel startPage reqs acc =
      some (reqs ++ (List.range' startPage (pages.length + 1)).map (mkRequest since),
        .err (acc ++ pages.flatten)) := by
  induction pages with
  | nil =>
    intro startPage fuel reqs acc hresp hne hend hf
    obtain ⟨f, rfl⟩ : ∃ f, fuel = f + 1 := ⟨fuel - 1, by omega⟩
    have h0 : respond (mkRequest since startPage) = .error () := by
      simpa using hend
    simp [streamLoop, h0, List.range']
  | cons p ps ih =>
    intro startPage fuel reqs acc hresp hne hend hf
    obtain ⟨f, rfl⟩ : ∃ f, fuel = f + 1 :=
      ⟨fuel - 1, by simp only [List.length_cons] at hf; omega⟩
    have h0 : respond (mkRequest since startPage) = .ok p := by
      have := hresp 0 (by simp)
      simpa using this
    obtain ⟨x, xs, rfl⟩ : ∃ x xs, p = x :: xs := by
      rcases p with _ | ⟨x, xs⟩
      · exact absurd rfl (hne [] (List.mem_cons_self _ _))
      · exact ⟨x, xs, rfl⟩
    simp only [streamLoop, h0]
    rw [ih (startPage + 1) f (reqs ++ [mkRequest since startPage])
      (acc ++ (x :: xs))
      (fun i hi => by
        have := hresp (i + 1) (by simp only [List.length_cons]; omega)
        rw [show startPage + (i + 1) = startPage + 1 + i from by omega] at this
        simpa using this)
      (fun q hq => hne q (List.mem_cons_of_mem _ hq))
      (by
        rw [show startPage + 1 + ps.length =
          startPage + ((x :: xs) :: ps).length from by
            simp only [List.length_cons]; omega]
        exact hend)
      (by simp only [List.length_cons] at hf ⊢; omega)]
    have hr : List.range' startPage (((x :: xs) :: ps).length + 1) =
        startPage :: List.range' (startPage + 1) (ps.length + 1) := by
      simp only [List.length_cons]
      exact List.range'_succ startPage (ps.length + 1) 1
    rw [hr]
    simp [List.append_assoc]

/-- Helper: an event whose `created_at` denotes a UTC epoch second is
accepted by the replicator, and its parsed fields are recoverable. -/
theorem evValid_of_epoch (x : RawEvent) (Ex : Int)
    (hid : x.id?.isSome = true) (h : evEpoch? x = some Ex) :
    evValid x = true ∧
    ∃ sx dtx offx, x.created_at? = some sx ∧
      fromisoformat (pyReplace sx "Z" "+00:00") = some dtx ∧
      dtx.tzOffsetSeconds = some offx ∧ toEpochSeconds dtx - offx = Ex := by
  unfold evEpoch? at h
  rcases hc : x.created_at? with _ | sx
  · rw [hc] at h; simp at h
  rw [hc] at h
  unfold tsVal at h
  dsimp only at h
  rcases hp : fromisoformat (pyReplace sx "Z" "+00:00") with _ | dtx
  · simp only [hp] at h
    exact absurd h (by simp)
  simp only [hp] at h
  rcases ho : dtx.tzOffsetSeconds with _ | offx
  · simp only [ho] at h
    exact absurd h (by simp)
  simp only [ho] at h
  refine ⟨?_, sx, dtx, offx, rfl, hp, ho, by simpa using h⟩
  simp [evValid, hid, hc, hp]

/-! ## The claims -/

/-- C1: a run whose event stream yields zero events.  The claim says the
run ends as a clean no-op with exit status 0 and no merge attempt.  The
code does delete the sync branch and leaves the target branch and state
file unchanged with nothing pushed — but the zero-commit cleanup block
does not return, so the merge block still runs, `git merge` of the
just-deleted branch fails, and the process exits 1. -/
theorem claim_C1_zero_event_run :
    runMain (fun _ => .ok []) 1 (fun _ => true) 0 1700000000 0
      { commits := [], stateFile := some "2024-01-01T00:00:00Z" }
      "sync/gitlab-20231114221320-0a1b2c3d" =
    some { exitCode := 1, pushed := false, mergeAttempted := true,
           localTarget := { commits := [], stateFile := some "2024-01-01T00:00:00Z" },
           remote := { commits := [], stateFile := some "2024-01-01T00:00:00Z" },
           syncBranch := none } := by
  rfl

/-- C3 (counterexample): with a state file that exists but is empty, the
read returns the empty string, not the 365-day default. -/
theorem claim_C3_counterexample :
    readStartDate (some "") 1700000000 0 = "" ∧
    DEFAULT_START_DATE 1700000000 0 = "2022-11-14T22:13:20Z" ∧
    readStartDate (some "") 1700000000 0 ≠ DEFAULT_START_DATE 1700000000 0 := by
  exact ⟨rfl, rfl, by decide⟩

/-- C3 (amended): the start date is the stripped state-file content
whenever the file exists (an empty file yields the empty string, not the
default); only a missing file falls back to the default of now − 365 days
truncated to whole seconds, a value computed once per run from the single
"now" instant. -/
theorem claim_C3_read_start_date (content : String) (nowE : Int) (nowM : Nat) :
    readStartDate none nowE nowM = DEFAULT_START_DATE nowE nowM ∧
    readStartDate (some content) nowE nowM = pyStrip content ∧
    (minEpoch + 365 * 86400 ≤ nowE → nowE ≤ maxEpoch →
      DEFAULT_START_DATE nowE nowM =
        strftimeZform (fromEpochUTC (nowE - 365 * 86400) 0)) := by
  refine ⟨rfl, rfl, fun h1 h2 => ?_⟩
  unfold DEFAULT_START_DATE
  rw [fromEpochUTC_micro0]
  unfold addSeconds
  rw [(toEpochSeconds_fromEpochUTC nowE 0
    (by unfold minEpoch at h1 ⊢; omega) h2).1]
  rw [show nowE + -(365 * 86400) = nowE - 365 * 86400 from by ring]
  rfl

theorem claim_C3_read_start_date_witness :
    readStartDate none 1700000000 0 = DEFAULT_START_DATE 1700000000 0 ∧
    readStartDate (some "  2024-01-01T00:00:00Z ") 1700000000 0 =
      "2024-01-01T00:00:00Z" ∧
    DEFAULT_START_DATE 1700000000 0 =
      strftimeZform (fromEpochUTC (1700000000 - 365 * 86400) 0) := by
  have h := claim_C3_read_start_date "  2024-01-01T00:00:00Z " 1700000000 0
  exact ⟨h.1, by rw [h.2.1]; decide, h.2.2 (by decide) (by decide)⟩

/-- C4: if creating the commit for the event at position `pre.length`
fails, the whole run aborts with an error naming that event's id: no
later event is replayed (the branch gains exactly the commits of the
preceding events), and the state file — hence the cursor — is untouched. -/
theorem claim_C4_commit_failure_aborts (ok : Nat → Bool) (loff : Int)
    (pre : List RawEvent) (e : RawEvent) (post : List RawEvent) (br : Branch)
    (hvpre : ∀ x ∈ pre, evValid x = true)
    (hokpre : ∀ j, j < pre.length → ok j = true)
    (hfail : ok pre.length = false)
    (cid : Int) (s : String) (dt : PyDateTime)
    (hid : e.id? = some cid) (hs : e.created_at? = some s)
    (hdt : fromisoformat (pyReplace s "Z" "+00:00") = some dt) :
    sync_events_and_update_state ok loff (pre ++ e :: post) br =
      ({ br with commits := br.commits ++ pre.map mkC },
       .error (.commitError cid)) ∧
    (sync_events_and_update_state ok loff (pre ++ e :: post) br).1.stateFile
      = br.stateFile := by
  have h := sync_commit_fail ok loff pre e post br hvpre hokpre hfail
    cid s dt hid hs hdt
  exact ⟨h, by rw [h]⟩

theorem claim_C4_witness :
    sync_events_and_update_state (fun i => i == 0) 0
        [mkEv 1 "2024-01-15T10:00:00Z", mkEv 2 "2024-01-15T10:00:05Z",
         mkEv 3 "2024-01-15T10:00:07Z"]
        { commits := [], stateFile := some "2024-01-01T00:00:00Z" } =
      ({ commits := [mkC (mkEv 1 "2024-01-15T10:00:00Z")],
         stateFile := some "2024-01-01T00:00:00Z" },
       .error (.commitError 2)) := by
  have h := claim_C4_commit_failure_aborts (fun i => i == 0) 0
    [mkEv 1 "2024-01-15T10:00:00Z"] (mkEv 2 "2024-01-15T10:00:05Z")
    [mkEv 3 "2024-01-15T10:00:07Z"]
    { commits := [], stateFile := some "2024-01-01T00:00:00Z" }
    (by decide) (by decide) (by decide)
    2 "2024-01-15T10:00:05Z" ⟨2024, 1, 15, 10, 0, 5, 0, some 0⟩
    rfl rfl (by decide)
  exact h.1

/-- C8: the replicator returns count 0 and leaves everything — in
particular the state file — unchanged exactly on an empty event sequence,
and any run that changes the state file replayed at least one event (the
write happens at most once, only in the non-zero branch). -/
theorem claim_C8_zero_commit_noop :
    (∀ (ok : Nat → Bool) (loff : Int) (br : Branch),
      sync_events_and_update_state ok loff [] br = (br, .ok 0)) ∧
    (∀ (ok : Nat → Bool) (loff : Int) (events : List RawEvent)
       (br br1 : Branch) (cnt : Nat),
      sync_events_and_update_state ok loff events br = (br1, .ok cnt) →
      cnt = 0 → br1 = br ∧ events = []) ∧
    (∀ (ok : Nat → Bool) (loff : Int) (events : List RawEvent)
       (br br1 : Branch) (cnt : Nat),
      sync_events_and_update_state ok loff events br = (br1, .ok cnt) →
      br1.stateFile ≠ br.stateFile → 1 ≤ cnt) := by
  refine ⟨sync_empty, ?_, ?_⟩
  · intro ok loff events br br1 cnt h hcnt
    exact (sync_ok_inv ok loff events br br1 cnt h).1 hcnt
  · intro ok loff events br br1 cnt h hne
    exact (sync_ok_inv ok loff events br br1 cnt h).2 hne

theorem claim_C8_witness :
    sync_events_and_update_state (fun _ => true) 0 []
        { commits := [], stateFile := some "2024-01-01T00:00:00Z" } =
      ({ commits := [], stateFile := some "2024-01-01T00:00:00Z" }, .ok 0) ∧
    ({ commits := [], stateFile := some "2024-01-01T00:00:00Z" } : Branch) =
        { commits := [], stateFile := some "2024-01-01T00:00:00Z" } := by
  refine ⟨claim_C8_zero_commit_noop.1 (fun _ => true) 0 _, ?_⟩
  exact (claim_C8_zero_commit_noop.2.1 (fun _ => true) 0 []
    { commits := [], stateFile := some "2024-01-01T00:00:00Z" } _ 0
    (claim_C8_zero_commit_noop.1 (fun _ => true) 0 _) rfl).1

/-- C6: with every git commit succeeding, the replicator creates exactly
one empty commit per yielded event, in arrival order, with author and
committer date both equal to `created_at` formatted as the naive
second-precision string and the event id embedded in the message; at most
one extra commit (the state-file marker) follows them. -/
theorem claim_C6_one_commit_per_event (ok : Nat → Bool) (loff : Int)
    (events : List RawEvent) (br : Branch)
    (hv : ∀ e ∈ events, evValid e = true) (hok : ∀ i, ok i = true) :
    ∃ br1 extra,
      sync_events_and_update_state ok loff events br =
        (br1, .ok events.length) ∧
      br1.commits = br.commits ++ events.map mkC ++ extra ∧
      (extra = [] ∨ ∃ s, extra = [mkMarkerCommit s]) ∧
      ∀ e ∈ events, ∃ cid s dt,
        e.id? = some cid ∧ e.created_at? = some s ∧
        fromisoformat (pyReplace s "Z" "+00:00") = some dt ∧
        mkC e = { message := "GitLab event ID: " ++ toString cid,
                  authorDate := some (strftimeNaive dt),
                  committerDate := some (strftimeNaive dt),
                  allowEmpty := true } := by
  have hper : ∀ e ∈ events, ∃ cid s dt,
      e.id? = some cid ∧ e.created_at? = some s ∧
      fromisoformat (pyReplace s "Z" "+00:00") = some dt ∧
      mkC e = { message := "GitLab event ID: " ++ toString cid,
                authorDate := some (strftimeNaive dt),
                committerDate := some (strftimeNaive dt),
                allowEmpty := true } := by
    intro e he
    have hvE := hv e he
    simp only [evValid, Bool.and_eq_true] at hvE
    obtain ⟨hid0, hca⟩ := hvE
    obtain ⟨cid, hid⟩ := Option.isSome_iff_exists.mp hid0
    rcases hc : e.created_at? with _ | s
    · rw [hc] at hca; simp at hca
    rw [hc] at hca
    obtain ⟨dt, hdt⟩ := Option.isSome_iff_exists.mp hca
    exact ⟨cid, s, dt, hid, rfl, hdt, by
      simp [mkC, hid, hc, hdt, mkEventCommit]⟩
  rcases List.eq_nil_or_concat events with rfl | ⟨l, e, hev⟩
  · exact ⟨br, [], sync_empty ok loff br, by simp, Or.inl rfl, by simp⟩
  rw [List.concat_eq_append] at hev
  subst hev
  obtain ⟨cid, s, dt, hid, hs, hdt, _⟩ := hper e (by simp)
  have h := sync_ok ok loff l e br hv hok s dt hs hdt
  have hlen : (l ++ [e]).length = l.length + 1 := by simp
  rw [hlen]
  refine ⟨_, _, h, rfl, ?_, hper⟩
  by_cases hch : br.stateFile = some (pyReplace
      (pyIsoformat { astimezoneUTC loff (addSeconds dt 1) with
        microsecond := 0 }) "+00:00" "Z")
  · rw [if_pos hch]; exact Or.inl rfl
  · rw [if_neg hch]; exact Or.inr ⟨s, rfl⟩

theorem claim_C6_witness :
    ∃ br1 extra,
      sync_events_and_update_state (fun _ => true) 0
          [mkEv 1 "2024-01-15T10:00:00Z", mkEv 2 "2024-01-15T10:00:05Z"]
          { commits := [], stateFile := some "2024-01-01T00:00:00Z" } =
        (br1, .ok 2) ∧
      br1.commits = [] ++
        [mkEv 1 "2024-01-15T10:00:00Z", mkEv 2 "2024-01-15T10:00:05Z"].map mkC
        ++ extra ∧
      (extra = [] ∨ ∃ s, extra = [mkMarkerCommit s]) ∧
      ∀ e ∈ [mkEv 1 "2024-01-15T10:00:00Z", mkEv 2 "2024-01-15T10:00:05Z"],
        ∃ cid s dt,
        e.id? = some cid ∧ e.created_at? = some s ∧
        fromisoformat (pyReplace s "Z" "+00:00") = some dt ∧
        mkC e = { message := "GitLab event ID: " ++ toString cid,
                  authorDate := some (strftimeNaive dt),
                  committerDate := some (strftimeNaive dt),
                  allowEmpty := true } :=
  claim_C6_one_commit_per_event (fun _ => true) 0
    [mkEv 1 "2024-01-15T10:00:00Z", mkEv 2 "2024-01-15T10:00:05Z"]
    { commits := [], stateFile := some "2024-01-01T00:00:00Z" }
    (by decide) (fun i => rfl)

/-- C7: the stream requests pages of fixed size 100 with `action=pushed`,
ascending sort and the given `after` bound, starting at page index 1 and
incrementing after each non-empty page, yields each page's events in
order, and terminates naturally exactly at the first empty page. -/
theorem claim_C7_stream_paging
    (respond : EventsRequest → Except Unit (List RawEvent)) (since : String)
    (fuel : Nat) (pages : List (List RawEvent))
    (hresp : ∀ i (hi : i < pages.length),
      respond (mkRequest since (1 + i)) = .ok pages[i])
    (hne : ∀ p ∈ pages, p ≠ [])
    (hend : respond (mkRequest since (1 + pages.length)) = .ok [])
    (hf : pages.length + 1 ≤ fuel) :
    stream_gitlab_events respond since fuel =
      some ((List.range' 1 (pages.length + 1)).map (mkRequest since),
        .ok pages.flatten) ∧
    COMMITS_PER_PAGE = 100 ∧
    ∀ page, mkRequest since page =
      { after := since, per_page := 100, page := page,
        action := "pushed", sort := "asc" } := by
  refine ⟨?_, rfl, fun page => rfl⟩
  have h := streamLoop_pages_ok respond since pages 1 fuel [] []
    hresp hne hend hf
  simpa [stream_gitlab_events] using h

theorem claim_C7_witness :
    stream_gitlab_events
      (fun r => if r.page = 1 then .ok [mkEv 1 "2024-01-15T10:00:00Z"]
        else if r.page = 2 then .ok [mkEv 2 "2024-01-15T10:00:05Z"]
        else .ok [])
      "2024-01-01T00:00:00Z" 3 =
    some ([mkRequest "2024-01-01T00:00:00Z" 1,
           mkRequest "2024-01-01T00:00:00Z" 2,
           mkRequest "2024-01-01T00:00:00Z" 3],
      .ok [mkEv 1 "2024-01-15T10:00:00Z", mkEv 2 "2024-01-15T10:00:05Z"]) := by
  have h := claim_C7_stream_paging
    (fun r => if r.page = 1 then .ok [mkEv 1 "2024-01-15T10:00:00Z"]
      else if r.page = 2 then .ok [mkEv 2 "2024-01-15T10:00:05Z"]
      else .ok [])
    "2024-01-01T00:00:00Z" 3
    [[mkEv 1 "2024-01-15T10:00:00Z"], [mkEv 2 "2024-01-15T10:00:05Z"]]
    (by
      intro i hi
      simp only [List.length_cons, List.length_nil] at hi
      interval_cases i <;> rfl)
    (by decide) rfl (by decide)
  exact h.1

/-- C9: every cursor value the replicator writes to the state file is a
single canonical line that a subsequent run's read (which strips
surrounding whitespace) returns unchanged. -/
theorem claim_C9_write_read_roundtrip (ok : Nat → Bool) (loff : Int)
    (events : List RawEvent) (br br1 : Branch) (cnt : Nat) (c : String)
    (h : sync_events_and_update_state ok loff events br = (br1, .ok cnt))
    (h1 : 1 ≤ cnt) (hc : br1.stateFile = some c) :
    pyStrip c = c ∧ ∀ nowE nowM, readStartDate (some c) nowE nowM = c := by
  unfold sync_events_and_update_state at h
  rcases hsl : syncLoop ok events 0 none 0 br with ⟨brL, rL⟩
  rw [hsl] at h
  cases rL with
  | error e2 => simp at h
  | ok p =>
    obtain ⟨led, cntL⟩ := p
    dsimp only at h
    by_cases hc0 : cntL = 0
    · rw [if_pos hc0] at h
      injection h with hbr hcnt
      injection hcnt with hcnt
      omega
    · rw [if_neg hc0] at h
      cases led with
      | none => simp at h
      | some led2 =>
        rcases hp : fromisoformat (pyReplace led2 "Z" "+00:00") with _ | dt
        · simp only [hp] at h
          simp at h
        · simp only [hp] at h
          injection h with hbr hcnt
          subst hbr
          dsimp only at hc
          injection hc with hc
          subst hc
          obtain ⟨hrep, hstrip⟩ := cursorString_eq
            ({ astimezoneUTC loff (addSeconds dt 1) with microsecond := 0 })
            rfl rfl
          rw [hrep]
          exact ⟨hstrip, fun nowE nowM => hstrip⟩

theorem claim_C9_witness :
    pyStrip "2024-01-15T10:00:01Z" = "2024-01-15T10:00:01Z" ∧
    ∀ nowE nowM, readStartDate (some "2024-01-15T10:00:01Z") nowE nowM =
      "2024-01-15T10:00:01Z" :=
  claim_C9_write_read_roundtrip (fun _ => true) 0
    [mkEv 1 "2024-01-15T10:00:00Z"]
    { commits := [], stateFile := some "2024-01-01T00:00:00Z" }
    (sync_events_and_update_state (fun _ => true) 0
      [mkEv 1 "2024-01-15T10:00:00Z"]
      { commits := [], stateFile := some "2024-01-01T00:00:00Z" }).1
    1 "2024-01-15T10:00:01Z" rfl (by decide) rfl

/-- C5: a failing page fetch aborts the entire run even when an earlier
page already yielded events: the run exits non-zero with no merge and no
push attempted, the target branch (local and remote) gains no commits,
and the state file is unchanged everywhere — the sync branch is merely
left behind with whatever had been replayed onto it. -/
theorem claim_C5_fetch_failure_aborts
    (respond : EventsRequest → Except Unit (List RawEvent)) (fuel : Nat)
    (ok : Nat → Bool) (loff nowE : Int) (nowM : Nat)
    (remote : Branch) (branch_name : String) (evs : List RawEvent)
    (h1 : respond (mkRequest (readStartDate remote.stateFile nowE nowM) 1)
      = .ok evs)
    (hne : evs ≠ [])
    (h2 : respond (mkRequest (readStartDate remote.stateFile nowE nowM) 2)
      = .error ())
    (hf : 2 ≤ fuel) :
    ∃ sb, runMain respond fuel ok loff nowE nowM remote branch_name =
      some { exitCode := 1, pushed := false, mergeAttempted := false,
             localTarget := remote, remote := remote,
             syncBranch := some sb } ∧
      sb.stateFile = remote.stateFile := by
  have hstream := streamLoop_pages_err respond
    (readStartDate remote.stateFile nowE nowM) [evs] 1 fuel [] []
    (fun i hi => by
      simp only [List.length_cons, List.length_nil] at hi
      interval_cases i
      simpa using h1)
    (by simpa using hne)
    (by simpa using h2)
    (by simpa using hf)
  have hstream2 : stream_gitlab_events respond
      (readStartDate remote.stateFile nowE nowM) fuel =
      some ((List.range' 1 2).map
        (mkRequest (readStartDate remote.stateFile nowE nowM)),
        .err evs) := by
    simpa [stream_gitlab_events] using hstream
  rcases hsl : syncLoop ok evs 0 none 0 remote with ⟨sb, rL⟩
  have hsb : sb.stateFile = remote.stateFile := by
    have hst := syncLoop_stateFile ok evs 0 none 0 remote
    rw [hsl] at hst
    exact hst
  refine ⟨sb, ?_, hsb⟩
  unfold runMain
  dsimp only
  rw [hstream2]
  dsimp only
  unfold syncOverStream
  dsimp only
  rw [hsl]
  cases rL with
  | error e2 => rfl
  | ok pp => rfl

theorem claim_C5_witness :
    ∃ sb, runMain
        (fun r => if r.page = 1 then .ok [mkEv 1 "2024-01-15T10:00:00Z"]
          else .error ())
        2 (fun _ => true) 0 1700000000 0
        { commits := [], stateFile := some "2024-01-01T00:00:00Z" }
        "sync/gitlab-20231114221320-0a1b2c3d" =
      some { exitCode := 1, pushed := false, mergeAttempted := false,
             localTarget := { commits := [], stateFile := some "2024-01-01T00:00:00Z" },
             remote := { commits := [], stateFile := some "2024-01-01T00:00:00Z" },
             syncBranch := some sb } ∧
      sb.stateFile = some "2024-01-01T00:00:00Z" :=
  claim_C5_fetch_failure_aborts
    (fun r => if r.page = 1 then .ok [mkEv 1 "2024-01-15T10:00:00Z"]
      else .error ())
    2 (fun _ => true) 0 1700000000 0
    { commits := [], stateFile := some "2024-01-01T00:00:00Z" }
    "sync/gitlab-20231114221320-0a1b2c3d"
    [mkEv 1 "2024-01-15T10:00:00Z"]
    rfl (by decide) rfl (by decide)

/-- C2: a successful run over ascending events that all lie strictly
after the previous cursor writes, exactly once, the cursor
`max(created_at) + 1 second` in canonical UTC second-precision
`Z`-suffixed form, strictly greater than the previous cursor; in
particular events at 10:00:00Z, 10:00:05Z, 10:00:05Z yield 10:00:06Z. -/
theorem claim_C2_cursor_max_plus_one (ok : Nat → Bool) (loff : Int)
    (events : List RawEvent) (epochs : List Int) (br : Branch)
    (prev : String) (p : Int)
    (hok : ∀ i, ok i = true)
    (hne : events ≠ [])
    (hmap : events.map evEpoch? = epochs.map some)
    (hid : ∀ e ∈ events, e.id?.isSome = true)
    (hsorted : List.Chain' (· ≤ ·) epochs)
    (hrange : ∀ x ∈ epochs, -62135000000 ≤ x ∧ x ≤ 253402000000)
    (hprev : tsVal prev = some p)
    (hafter : ∀ x ∈ epochs, p < x) :
    (∃ br1, sync_events_and_update_state ok loff events br =
        (br1, .ok events.length) ∧
      br1.stateFile = some (specNextCursor epochs) ∧
      specNextCursor epochs =
        strftimeZform (fromEpochUTC (listMax epochs + 1) 0) ∧
      p < listMax epochs + 1) ∧
    (sync_events_and_update_state (fun _ => true) 0
        [mkEv 1 "2024-01-15T10:00:00Z", mkEv 2 "2024-01-15T10:00:05Z",
         mkEv 3 "2024-01-15T10:00:05Z"]
        { commits := [], stateFile := some "2024-01-01T00:00:00Z" }
      ).1.stateFile = some "2024-01-15T10:00:06Z" := by
  refine ⟨?_, by rfl⟩
  rcases List.eq_nil_or_concat events with rfl | ⟨l, e, hev⟩
  · exact absurd rfl hne
  rw [List.concat_eq_append] at hev
  subst hev
  have hlen : (l ++ [e]).length = epochs.length := by
    have hh := congrArg List.length hmap
    simpa using hh
  rcases List.eq_nil_or_concat epochs with rfl | ⟨l2, E, hep⟩
  · simp at hlen
  rw [List.concat_eq_append] at hep
  subst hep
  have hlen2 : (l.map evEpoch?).length = (l2.map some).length := by
    simp only [List.length_append, List.length_cons, List.length_nil,
      List.length_map] at hlen ⊢
    omega
  obtain ⟨hmapl, hmape⟩ := List.append_inj
    (by simpa using hmap) (by simpa using hlen2)
  have hEe : evEpoch? e = some E := by simpa using hmape
  have hmem : ∀ x ∈ l ++ [e], ∃ Ex, Ex ∈ l2 ++ [E] ∧
      evEpoch? x = some Ex := by
    intro x hx
    have hm1 : evEpoch? x ∈ (l ++ [e]).map evEpoch? :=
      List.mem_map_of_mem _ hx
    rw [hmap] at hm1
    obtain ⟨Ex, hEx, heq⟩ := List.mem_map.mp hm1
    exact ⟨Ex, hEx, heq.symm⟩
  have hv : ∀ x ∈ l ++ [e], evValid x = true := by
    intro x hx
    obtain ⟨Ex, _, hq⟩ := hmem x hx
    exact (evValid_of_epoch x Ex (hid x hx) hq).1
  obtain ⟨_, s, dt, off, hs, hdt, hoff, hE⟩ :=
    evValid_of_epoch e E (hid e (by simp)) hEe
  have h := sync_ok ok loff l e br hv hok s dt hs hdt
  have hErange := hrange E (by simp)
  have hoffb := (fromisoformat_fields _ _ hdt).2.2.2.2.2.2.2.2.2 off hoff
  have hW1 : minEpoch ≤ toEpochSeconds dt + 1 := by
    unfold minEpoch
    omega
  have hW2 : toEpochSeconds dt + 1 ≤ maxEpoch := by
    unfold maxEpoch
    omega
  have hstep := cursor_step dt off loff hoff hW1 hW2
  have hcursor : ({ astimezoneUTC loff (addSeconds dt 1) with
      microsecond := 0 } : PyDateTime) = fromEpochUTC (E + 1) 0 := by
    rw [hstep, show toEpochSeconds dt + 1 - off = E + 1 from by omega]
  have hmaxE : listMax (l2 ++ [E]) = E := listMax_concat_sorted l2 E hsorted
  have hspec : specNextCursor (l2 ++ [E]) =
      pyReplace (pyIsoformat ({ astimezoneUTC loff (addSeconds dt 1) with
        microsecond := 0 })) "+00:00" "Z" := by
    rw [hcursor]
    unfold specNextCursor
    rw [hmaxE]
    exact ((cursorString_eq (fromEpochUTC (E + 1) 0) rfl rfl).1).symm
  have hlen3 : (l ++ [e]).length = l.length + 1 := by simp
  rw [hlen3]
  refine ⟨_, h, ?_, rfl, ?_⟩
  · rw [hspec]
  · rw [hmaxE]
    have := hafter E (by simp)
    omega

theorem claim_C2_witness :
    (∃ br1, sync_events_and_update_state (fun _ => true) 0
        [mkEv 1 "2024-01-15T10:00:00Z", mkEv 2 "2024-01-15T10:00:05Z",
         mkEv 3 "2024-01-15T10:00:05Z"]
        { commits := [], stateFile := some "2024-01-01T00:00:00Z" } =
        (br1, .ok 3) ∧
      br1.stateFile =
        some (specNextCursor [1705312800, 1705312805, 1705312805]) ∧
      specNextCursor [1705312800, 1705312805, 1705312805] =
        strftimeZform (fromEpochUTC
          (listMax [1705312800, 1705312805, 1705312805] + 1) 0) ∧
      1704067200 < listMax [1705312800, 1705312805, 1705312805] + 1) ∧
    (sync_events_and_update_state (fun _ => true) 0
        [mkEv 1 "2024-01-15T10:00:00Z", mkEv 2 "2024-01-15T10:00:05Z",
         mkEv 3 "2024-01-15T10:00:05Z"]
        { commits := [], stateFile := some "2024-01-01T00:00:00Z" }
      ).1.stateFile = some "2024-01-15T10:00:06Z" :=
  claim_C2_cursor_max_plus_one (fun _ => true) 0
    [mkEv 1 "2024-01-15T10:00:00Z", mkEv 2 "2024-01-15T10:00:05Z",
     mkEv 3 "2024-01-15T10:00:05Z"]
    [1705312800, 1705312805, 1705312805]
    { commits := [], stateFile := some "2024-01-01T00:00:00Z" }
    "2024-01-01T00:00:00Z" 1704067200
    (fun _ => rfl) (by decide) rfl (by decide)
    (by simp only [List.chain'_cons, List.chain'_singleton, and_true]
        omega)
    (by decide) rfl (by decide)
